import Mathlib

/-!
Verification of the OmniBuilder task-automation agent core against its
specification.  The Python modules `omnibuilder/core/planner.py`,
`omnibuilder/core/selector.py`, `omnibuilder/core/error_handler.py`,
`omnibuilder/environment/safety.py` and `omnibuilder/agent.py` are shallowly
embedded below: pure methods become Lean functions, Python `dict`s become
insertion-ordered association lists, Python floats in the complexity
heuristic become exact rationals, exceptions become `Except`/`Option`
results, and the external collaborators (LLM completion, JSON parsing,
uuid generation, step handlers) become explicit function parameters.
-/

namespace OmniBuilder

/-! ## Generic helpers: Python string and dict primitives -/

/-- Lowercase the characters of a string, as Python `str.lower` does for
the ASCII texts handled here. -/
def lowerChars (s : String) : List Char :=
  s.data.map Char.toLower

/-- Helper for `splitOnPred`: accumulates the current token in reverse. -/
def splitAuxL (p : Char → Bool) : List Char → List Char → List (List Char)
  | [], acc => [acc.reverse]
  | c :: cs, acc => if p c then acc.reverse :: splitAuxL p cs [] else splitAuxL p cs (c :: acc)

/-- Split a character list at every separator character. -/
def splitOnPred (p : Char → Bool) (l : List Char) : List (List Char) :=
  splitAuxL p l []

/-- Python `str.split()` with no argument: split on whitespace and drop
empty tokens. -/
def pyWords (l : List Char) : List (List Char) :=
  (splitOnPred (fun c => c.isWhitespace) l).filter (fun w => w ≠ [])

/-- Whether `pat` occurs at the start of `s` (character-list version). -/
def startsWith : List Char → List Char → Bool
  | [], _ => true
  | _ :: _, [] => false
  | p :: ps, c :: cs => p == c && startsWith ps cs

/-- Python's substring test `pat in s`: unanchored containment. -/
def containsSub (pat : List Char) : List Char → Bool
  | [] => pat.isEmpty
  | c :: cs => startsWith pat (c :: cs) || containsSub pat cs

/-- Python `dict` assignment `d[k] = v`: replace the value in place if the
key exists (keeping its insertion position), else append. -/
def upsertA {α : Type} (k : String) (v : α) : List (String × α) → List (String × α)
  | [] => [(k, v)]
  | (k', v') :: rest => if k' = k then (k', v) :: rest else (k', v') :: upsertA k v rest

/-- Python `dict` lookup `d[k]` / `d.get(k)`: first binding of the key. -/
def lookupA {α : Type} (k : String) : List (String × α) → Option α
  | [] => none
  | (k', v) :: rest => if k' = k then some v else lookupA k rest

/-! ## Data model (`omnibuilder/models.py`) -/

/-- Enum `TaskStatus`. -/
inductive TaskStatus where
  | pending
  | inProgress
  | completed
  | failed
  | blocked
deriving DecidableEq

/-- Enum `RiskLevel`. -/
inductive RiskLevel where
  | low
  | medium
  | high
  | critical
deriving DecidableEq

/-- Enum `ToolCategory`. -/
inductive ToolCategory where
  | core
  | environment
  | versionControl
  | webResearch
  | cloud
  | data
  | communication
  | visualization
  | debugging
deriving DecidableEq

/-- Model `TaskStep` (timestamps dropped: the core never reads them; the
`result` payload is abstracted to a string). -/
structure TaskStep where
  id : String
  description : String
  status : TaskStatus
  dependencies : List String
  toolName : Option String
  result : Option String
  error : Option String
deriving DecidableEq

/-- Model `ExecutionPlan` (creation timestamp dropped; `estimated_duration`
is an integer number of seconds). -/
structure ExecutionPlan where
  id : String
  goal : String
  steps : List TaskStep
  status : TaskStatus
  estimatedDuration : Option Int
deriving DecidableEq

/-- Model `ComplexityScore`; Python floats become exact rationals (the
heuristic only produces dyadic/decimal values). -/
structure ComplexityScore where
  overall : ℚ
  cognitive : ℚ
  technical : ℚ
  timeEstimate : Int
  riskLevel : RiskLevel
deriving DecidableEq

/-- Pydantic validation of `ComplexityScore`: `overall`, `cognitive` and
`technical` carry `ge=0.0, le=10.0` field constraints; construction fails
(raises `ValidationError`) when any is violated. -/
def mkComplexityScore (overall cognitive technical : ℚ) (timeEstimate : Int)
    (riskLevel : RiskLevel) : Option ComplexityScore :=
  if 0 ≤ overall ∧ overall ≤ 10 ∧ 0 ≤ cognitive ∧ cognitive ≤ 10 ∧
      0 ≤ technical ∧ technical ≤ 10 then
    some ⟨overall, cognitive, technical, timeEstimate, riskLevel⟩
  else
    none

/-- Model `Tool` (parameter schema as name/type-tag pairs). -/
structure Tool where
  name : String
  description : String
  category : ToolCategory
  parameters : List (String × String)
  requiredParams : List String
  riskLevel : RiskLevel
  requiresConfirmation : Bool
deriving DecidableEq

/-! ## GoalDecomposer (`omnibuilder/core/planner.py`) -/

/-- One element of the structured (JSON array) LLM response consumed by
`GoalDecomposer._parse_steps_response`; the JSON decoder itself is an
external library modelled as an oracle `String → Option (List StepData)`
(`none` = `json.JSONDecodeError`). -/
structure StepData where
  description : Option String
  dependencies : List String
  toolName : Option String
deriving DecidableEq

/-- The single fallback step built by the degradation paths of
`decompose_task` and `_parse_steps_response`. -/
def fallbackStep (id desc : String) : TaskStep :=
  ⟨id, desc, TaskStatus.pending, [], none, none, none⟩

/-- Loop of `_parse_steps_response` over the decoded array; `ids` abstracts
`uuid.uuid4()` (the id handed to the i-th created step). -/
def buildSteps (ids : Nat → String) : Nat → List StepData → List TaskStep
  | _, [] => []
  | i, d :: ds =>
    ⟨ids i, d.description.getD "", TaskStatus.pending, d.dependencies, d.toolName, none, none⟩
      :: buildSteps ids (i + 1) ds

/-- `GoalDecomposer._parse_steps_response`: decode the response as a JSON
array of step objects; on `JSONDecodeError` fall back to a single step
whose description is the raw response. -/
def parse_steps_response (jsonArr : String → Option (List StepData)) (ids : Nat → String)
    (response : String) : List TaskStep :=
  match jsonArr response with
  | some ds => buildSteps ids 0 ds
  | none => [fallbackStep (ids 0) response]

/-- `GoalDecomposer._build_decomposition_prompt`. -/
def build_decomposition_prompt (goal : String) (context : Option String) : String :=
  "Decompose the following goal into discrete, actionable steps.\n" ++
  "Each step should be specific and executable.\n\nGoal: " ++ goal ++
  (match context with
   | some c => "\n\nContext:\n" ++ c
   | none => "") ++
  "\n\nReturn a JSON array of steps with:\n" ++
  "- description: what needs to be done\n" ++
  "- dependencies: list of step indices this depends on\n" ++
  "- tool_name: suggested tool to use (if applicable)\n" ++
  "- estimated_minutes: estimated time to complete\n\nFormat as JSON array."

/-- `GoalDecomposer.decompose_task`: ask the LLM client (when configured)
and parse, else fall back to a single step wrapping the goal. -/
def decompose_task (client : Option (String → String))
    (jsonArr : String → Option (List StepData)) (ids : Nat → String)
    (goal : String) (context : Option String) : List TaskStep :=
  match client with
  | some complete =>
    parse_steps_response jsonArr ids (complete (build_decomposition_prompt goal context))
  | none => [fallbackStep (ids 0) goal]

/-- Keyword list `complex_keywords` of `estimate_complexity`. -/
def complexKeywords : List String :=
  ["integrate", "optimize", "refactor", "architect", "design"]

/-- Keyword list `simple_keywords` of `estimate_complexity`. -/
def simpleKeywords : List String :=
  ["add", "update", "fix", "change"]

/-- Word count `len(task.split())` of `estimate_complexity`. -/
def wordCount (task : String) : Nat :=
  (pyWords task.data).length

/-- `GoalDecomposer.estimate_complexity`: the deterministic heuristic,
with Python float arithmetic carried out exactly over the rationals and
`int()` truncation rendered as `Rat.floor` (every value here is
nonnegative, where the two coincide).  Returns `none` when the pydantic
constraints of `ComplexityScore` reject the result. -/
def estimate_complexity (task : String) : Option ComplexityScore :=
  let wc : ℚ := (wordCount task : ℚ)
  let cognitive0 : ℚ := min 10 (wc / 10)
  let taskLower := lowerChars task
  let hasComplex := complexKeywords.any (fun kw => containsSub kw.data taskLower)
  let hasSimple := simpleKeywords.any (fun kw => containsSub kw.data taskLower)
  let technical1 : ℚ := if hasComplex then 5 + 2 else 5
  let cognitive : ℚ := if hasComplex then cognitive0 + 1 else cognitive0
  let technical2 : ℚ := if hasSimple then technical1 - 1 else technical1
  let technical : ℚ := max 0 (min 10 technical2)
  let overall : ℚ := (cognitive + technical) / 2
  let timeEstimate : Int := Int.floor (overall * 10)
  let riskLevel : RiskLevel :=
    if 7 < overall then RiskLevel.high
    else if 4 < overall then RiskLevel.medium
    else RiskLevel.low
  mkComplexityScore overall cognitive technical timeEstimate riskLevel

/-! ## Planner (`omnibuilder/core/planner.py`) -/

/-- Ready test of `prioritize_steps`:
`all(dep in completed_ids for dep in s.dependencies)`. -/
def stepReady (completed : List String) (s : TaskStep) : Bool :=
  s.dependencies.all (fun d => completed.contains d)

/-- Insert a step into a list sorted by ascending dependency count,
before the first strictly larger key (stable). -/
def insertByDeps (s : TaskStep) : List TaskStep → List TaskStep
  | [] => [s]
  | t :: ts =>
    if s.dependencies.length ≤ t.dependencies.length then s :: t :: ts
    else t :: insertByDeps s ts

/-- `ready.sort(key=lambda s: len(s.dependencies))`: Python's stable sort,
rendered as stable insertion sort (identical output for this key). -/
def sortByDeps : List TaskStep → List TaskStep
  | [] => []
  | s :: ss => insertByDeps s (sortByDeps ss)

/-- Body of the `while remaining` loop of `prioritize_steps`.  The loop
removes at least one step per iteration when `ready` is nonempty, so a
fuel of `remaining.length` always suffices (`prioritizeGo_length` style
invariant: fuel never reaches 0 with a nonempty `remaining`). -/
def prioritizeGo (completed : List String) (remaining : List TaskStep) : Nat → List TaskStep
  | 0 => remaining
  | fuel + 1 =>
    let ready := remaining.filter (stepReady completed)
    if ready.isEmpty then remaining
    else
      sortByDeps ready ++
        prioritizeGo (completed ++ ready.map (fun s => s.id))
          (remaining.filter (fun s => !stepReady completed s)) fuel

/-- `Planner.prioritize_steps`: topological ordering with graceful
degradation (cycle or unresolvable dependencies append `remaining`
as-is). -/
def prioritize_steps (steps : List TaskStep) : List TaskStep :=
  prioritizeGo [] steps steps.length

/-- `Planner.update_plan_status`. -/
def update_plan_status (plan : ExecutionPlan) : ExecutionPlan :=
  let statuses := plan.steps.map (fun s => s.status)
  if statuses.all (fun s => s == TaskStatus.completed) then
    { plan with status := TaskStatus.completed }
  else if statuses.any (fun s => s == TaskStatus.failed) then
    { plan with status := TaskStatus.failed }
  else if statuses.any (fun s => s == TaskStatus.inProgress) then
    { plan with status := TaskStatus.inProgress }
  else if statuses.any (fun s => s == TaskStatus.blocked) then
    { plan with status := TaskStatus.blocked }
  else plan

/-- `Planner.create_execution_plan`: decompose, estimate complexity, and
assemble the plan (`estimated_duration = time_estimate * 60` seconds).
`planId` abstracts the plan's `uuid.uuid4()`; `none` models the
`ValidationError` escaping from `estimate_complexity`. -/
def create_execution_plan (client : Option (String → String))
    (jsonArr : String → Option (List StepData)) (ids : Nat → String)
    (goal : String) (context : Option String) (planId : String) : Option ExecutionPlan :=
  let steps := decompose_task client jsonArr ids goal context
  match estimate_complexity goal with
  | some cx => some ⟨planId, goal, steps, TaskStatus.pending, some (cx.timeEstimate * 60)⟩
  | none => none

/-! ## ToolSelector (`omnibuilder/core/selector.py`) -/

/-- The eight tools installed by `ToolSelector._initialize_default_tools`. -/
def defaultTools : List Tool :=
  [⟨"execute_shell", "Execute a shell command", ToolCategory.environment,
    [("command", "str"), ("timeout", "int"), ("cwd", "str")], ["command"],
    RiskLevel.medium, false⟩,
   ⟨"read_file", "Read contents of a file", ToolCategory.environment,
    [("path", "str"), ("encoding", "str")], ["path"], RiskLevel.low, false⟩,
   ⟨"write_file", "Write contents to a file", ToolCategory.environment,
    [("path", "str"), ("content", "str"), ("encoding", "str")], ["path", "content"],
    RiskLevel.medium, false⟩,
   ⟨"search_code", "Search for code patterns in codebase", ToolCategory.environment,
    [("query", "str"), ("file_pattern", "str"), ("path", "str")], ["query"],
    RiskLevel.low, false⟩,
   ⟨"git_commit", "Commit changes to git", ToolCategory.versionControl,
    [("message", "str"), ("files", "list")], ["message"], RiskLevel.medium, false⟩,
   ⟨"git_push", "Push commits to remote", ToolCategory.versionControl,
    [("remote", "str"), ("branch", "str")], [], RiskLevel.high, true⟩,
   ⟨"search_web", "Search the web for information", ToolCategory.webResearch,
    [("query", "str"), ("num_results", "int")], ["query"], RiskLevel.low, false⟩,
   ⟨"generate_code", "Generate code from specification", ToolCategory.core,
    [("spec", "str"), ("language", "str")], ["spec"], RiskLevel.low, false⟩]

/-- `ToolSelector.register_tool`: `self._tools[tool.name] = tool`. -/
def register_tool (t : Tool) (registry : List (String × Tool)) : List (String × Tool) :=
  upsertA t.name t registry

/-- The registry `self._tools` right after `__init__`. -/
def defaultRegistry : List (String × Tool) :=
  defaultTools.foldl (fun acc t => register_tool t acc) []

/-- Name tokens of a tool:
`tool.name.lower().replace("_", " ").split()`. -/
def toolWords (t : Tool) : List (List Char) :=
  (splitOnPred (fun c => c == '_' || c.isWhitespace) (lowerChars t.name)).filter
    (fun w => w ≠ [])

/-- Description tokens of a tool: `tool.description.lower().split()`. -/
def descWords (t : Tool) : List (List Char) :=
  pyWords (lowerChars t.description)

/-- Per-tool score of `select_tool`: `+1.0` for every token of the
concatenation `tool_words + desc_words` that occurs as a substring of the
lowercased task description, `+5.0` when the full tool name occurs
verbatim.  The float score is an exact small integer, modelled as `Nat`. -/
def toolScore (t : Tool) (taskLower : List Char) : Nat :=
  ((toolWords t ++ descWords t).filter (fun w => containsSub w taskLower)).length +
    (if containsSub (lowerChars t.name) taskLower then 5 else 0)

/-- The `scores` dict of `select_tool`, built tool by tool with dict
assignment semantics. -/
def buildScores (taskLower : List Char) : List Tool → List (String × Nat) → List (String × Nat)
  | [], acc => acc
  | t :: ts, acc => buildScores taskLower ts (upsertA t.name (toolScore t taskLower) acc)

/-- Python `max(scores, key=scores.get)`: the first binding attaining the
maximal value, in dict insertion order. -/
def argmaxFirst : List (String × Nat) → Option (String × Nat)
  | [] => none
  | kv :: rest =>
    match argmaxFirst rest with
    | none => some kv
    | some kv' => if kv.2 < kv'.2 then some kv' else some kv

/-- Result of `select_tool`: `none`, a tool, or a `KeyError` escaping from
`self._tools[best_tool_name]`. -/
inductive SelectResult where
  | noTool
  | found (t : Tool)
  | keyError (name : String)
deriving DecidableEq

/-- `ToolSelector.select_tool` (the unused `context` parameter is
dropped): score candidates (`available_tools or list(self._tools.values())`,
Python truthiness: an empty candidate list also falls back to the
registry), take the argmax, and when its score is positive return
`self._tools[best_tool_name]` — a registry lookup, not the candidate. -/
def select_tool (registry : List (String × Tool)) (availableTools : Option (List Tool))
    (taskDescription : String) : SelectResult :=
  let tools :=
    match availableTools with
    | some ts => if ts = [] then registry.map Prod.snd else ts
    | none => registry.map Prod.snd
  if tools = [] then SelectResult.noTool
  else
    let taskLower := lowerChars taskDescription
    match argmaxFirst (buildScores taskLower tools []) with
    | none => SelectResult.noTool
    | some kv =>
      if 0 < kv.2 then
        match lookupA kv.1 registry with
        | some t => SelectResult.found t
        | none => SelectResult.keyError kv.1
      else SelectResult.noTool

/-! ## SafetyPrompt (`omnibuilder/environment/safety.py`) -/

/-- Model `Action` (timestamp dropped). -/
structure Action where
  name : String
  description : String
  command : Option String
  target : Option String
deriving DecidableEq

/-- `self._critical_patterns`. -/
def criticalPatterns : List String :=
  ["rm -rf /", "rm -rf /*", "mkfs.", "dd if=", ":()\x7b:|:&\x7d;:",
   "chmod -R 777 /", "> /dev/sd", "git push --force origin main",
   "git push --force origin master", "DROP DATABASE", "DELETE FROM"]

/-- `self._high_risk_patterns`. -/
def highRiskPatterns : List String :=
  ["rm -rf", "rm -r", "git push", "git reset --hard", "git checkout --",
   "sudo ", "pip install", "npm install -g", "docker rm", "kubectl delete"]

/-- `self._medium_risk_patterns`. -/
def mediumRiskPatterns : List String :=
  ["mv ", "cp ", "git commit", "git merge", "chmod", "chown", "pip", "npm",
   "apt install"]

/-- The lowercase check string of `classify_risk`: the command when truthy
(Python `if action.command:` — `None` and `""` both fall through), else
`f"{action.name} {action.description}"`. -/
def checkChars (a : Action) : List Char :=
  match a.command with
  | some c => if c = "" then lowerChars (a.name ++ " " ++ a.description) else lowerChars c
  | none => lowerChars (a.name ++ " " ++ a.description)

/-- `SafetyPrompt.classify_risk`: three ordered pattern tiers, unanchored
lowercase substring tests, most severe tier first. -/
def classify_risk (a : Action) : RiskLevel :=
  let cs := checkChars a
  if criticalPatterns.any (fun p => containsSub (lowerChars p) cs) then RiskLevel.critical
  else if highRiskPatterns.any (fun p => containsSub (lowerChars p) cs) then RiskLevel.high
  else if mediumRiskPatterns.any (fun p => containsSub (lowerChars p) cs) then RiskLevel.medium
  else RiskLevel.low

/-- Model of the dict appended by `AuditLog.log` (ISO timestamp abstracted
to a counter). -/
structure AuditEntry where
  timestamp : Nat
  action : String
  description : String
  command : Option String
  target : Option String
  riskLevel : RiskLevel
  approved : Bool
  userResponse : Option String
deriving DecidableEq

/-- `AuditLog.get_entries`: `self._entries[-limit:]` — the last `limit`
entries; Python's `[-0:]` returns the whole list. -/
def get_entries (entries : List AuditEntry) (limit : Nat) : List AuditEntry :=
  if limit = 0 then entries else entries.drop (entries.length - limit)

/-- `SafetyPrompt.get_audit_log`: `get_entries` at its default
`limit=100`. -/
def get_audit_log (entries : List AuditEntry) : List AuditEntry :=
  get_entries entries 100

/-! ## SelfCorrector (`omnibuilder/core/error_handler.py`) -/

/-- Outcome of `retry_with_backoff`: the propagated result, the total
number of invocations of the action, and the `{success, attempts}` pair
recorded into `_action_history`.  Backoff sleeps affect no observable
state and are omitted. -/
structure RetryResult (ε α : Type) where
  outcome : Except ε α
  calls : Nat
  record : Bool × Nat

/-- Loop of `retry_with_backoff`: attempt number `k`, `fuel` attempts
still allowed after this one (`k + fuel = max_retries`). -/
def retryGo {ε α : Type} (action : Nat → Except ε α) : Nat → Nat → RetryResult ε α
  | k, 0 =>
    match action k with
    | Except.ok v => ⟨Except.ok v, k + 1, (true, k)⟩
    | Except.error e => ⟨Except.error e, k + 1, (false, k)⟩
  | k, fuel + 1 =>
    match action k with
    | Except.ok v => ⟨Except.ok v, k + 1, (true, k)⟩
    | Except.error _ => retryGo action (k + 1) fuel

/-- `SelfCorrector.retry_with_backoff`: `for attempt in
range(config.max_retries + 1)`; on success record `(True, attempt)` and
return, after exhaustion record `(False, max_retries)` and re-raise the
last error.  The action is modelled as a function of the attempt index so
that distinct invocations are distinguishable. -/
def retry_with_backoff {ε α : Type} (maxRetries : Nat) (action : Nat → Except ε α) :
    RetryResult ε α :=
  retryGo action 0 maxRetries

/-! ## OmniBuilderAgent (`omnibuilder/agent.py`) -/

/-- One element of the `results` list built by `OmniBuilderAgent.run`
(the fix-suggestion payload of the failure entry is dropped). -/
structure RunEntry where
  step : String
  success : Bool
  result : Option String
  error : Option String
deriving DecidableEq

/-- The step-execution loop of `OmniBuilderAgent.run` (`for step in
plan.steps`), with `_execute_step` abstracted as an oracle
`TaskStep → Except String String`.  Returns the mutated steps and the
`results` entries, both in execution order. -/
def runLoop (exec : TaskStep → Except String String) :
    List TaskStep → List TaskStep × List RunEntry
  | [] => ([], [])
  | s :: rest =>
    let s1 := { s with status := TaskStatus.inProgress }
    match exec s1 with
    | Except.ok r =>
      let done := runLoop exec rest
      ({ s1 with status := TaskStatus.completed, result := some r } :: done.1,
       ⟨s.description, true, some r, none⟩ :: done.2)
    | Except.error e =>
      let done := runLoop exec rest
      ({ s1 with status := TaskStatus.failed, error := some e } :: done.1,
       ⟨s.description, false, none, some e⟩ :: done.2)

/-! ## Spec-side definitions

Definitions in this section transcribe the specification's (or a claim's)
own wording, to be compared with the code-side definitions above. -/

/-- Spec wording of the per-tool score (claim C6): "+1.0 per token from
the **union** of its tokenized name and description words" — the union
counts each distinct token once. -/
def specUnionScore (t : Tool) (taskLower : List Char) : Nat :=
  (((toolWords t ++ descWords t).dedup).filter (fun w => containsSub w taskLower)).length +
    (if containsSub (lowerChars t.name) taskLower then 5 else 0)

/-- Claim C8's verbatim formulas for `estimate_complexity`:
`cognitive = min(10, wordCount/10)`; `technical = 5 (+2 complex keyword,
−1 simple keyword, clamped to [0,10])`; `overall = (cognitive+technical)/2`;
`timeEstimateMinutes = round(overall*10)`;
`riskLevel = High if overall>7 else Medium if overall>4 else Low`. -/
def specClaimComplexity (task : String) : ComplexityScore :=
  let wc : ℚ := (wordCount task : ℚ)
  let taskLower := lowerChars task
  let hasComplex := complexKeywords.any (fun kw => containsSub kw.data taskLower)
  let hasSimple := simpleKeywords.any (fun kw => containsSub kw.data taskLower)
  let cognitive : ℚ := min 10 (wc / 10)
  let technical : ℚ :=
    max 0 (min 10 (5 + (if hasComplex then 2 else 0) - (if hasSimple then 1 else 0)))
  let overall : ℚ := (cognitive + technical) / 2
  ⟨overall, cognitive, technical, round (overall * 10),
   if 7 < overall then RiskLevel.high
   else if 4 < overall then RiskLevel.medium
   else RiskLevel.low⟩

/-- Claim C8 amended: the code additionally adds `1.0` to `cognitive`
when a complex keyword is present, and `timeEstimateMinutes` is the
truncation `int(overall*10)`, not a rounding. -/
def specAmendedComplexity (task : String) : ComplexityScore :=
  let wc : ℚ := (wordCount task : ℚ)
  let taskLower := lowerChars task
  let hasComplex := complexKeywords.any (fun kw => containsSub kw.data taskLower)
  let hasSimple := simpleKeywords.any (fun kw => containsSub kw.data taskLower)
  let cognitive : ℚ := min 10 (wc / 10) + (if hasComplex then 1 else 0)
  let technical : ℚ :=
    max 0 (min 10 (5 + (if hasComplex then 2 else 0) - (if hasSimple then 1 else 0)))
  let overall : ℚ := (cognitive + technical) / 2
  ⟨overall, cognitive, technical, Int.floor (overall * 10),
   if 7 < overall then RiskLevel.high
   else if 4 < overall then RiskLevel.medium
   else RiskLevel.low⟩

/-- Spec wording of the plan-status aggregation rule (claim C4), extended
with the fall-through the code actually has: when no clause fires the
prior status is kept. -/
def specDerivedStatus (statuses : List TaskStatus) (prior : TaskStatus) : TaskStatus :=
  if statuses.all (fun s => s == TaskStatus.completed) then TaskStatus.completed
  else if statuses.any (fun s => s == TaskStatus.failed) then TaskStatus.failed
  else if statuses.any (fun s => s == TaskStatus.inProgress) then TaskStatus.inProgress
  else if statuses.any (fun s => s == TaskStatus.blocked) then TaskStatus.blocked
  else prior

/-- An output list is topologically ordered relative to an initial set of
already-satisfied ids: every dependency of every step is either initially
satisfied or the id of an earlier step of the list. -/
def TopoFrom (completed : List String) : List TaskStep → Prop
  | [] => True
  | s :: rest => (∀ d ∈ s.dependencies, d ∈ completed) ∧ TopoFrom (completed ++ [s.id]) rest

/-- Claim C2's wording for the scheduler output: "every step appears
after all of its dependencies" — for every step of the list, every
dependency that names a step of the list names a step occurring strictly
earlier. -/
def AppearsAfterDeps (out : List TaskStep) : Prop :=
  ∀ pre s post, out = pre ++ s :: post →
    ∀ d ∈ s.dependencies, (∃ t ∈ out, t.id = d) → ∃ t ∈ pre, t.id = d

/-- The dependency relation among the steps of a list: `step_dep steps s t`
holds when both belong to the list and `s` depends on `t`. -/
def step_dep (steps : List TaskStep) (s t : TaskStep) : Prop :=
  s ∈ steps ∧ t ∈ steps ∧ t.id ∈ s.dependencies

/-- Acyclicity of the dependency relation restricted to the list: no step
reaches itself through a nonempty dependency chain. -/
def AcyclicDeps (steps : List TaskStep) : Prop :=
  ∀ s ∈ steps, ¬ Relation.TransGen (step_dep steps) s s

/-- Every dependency id of every step of the list is the id of some step
of the list (a closed dependency graph). -/
def ClosedDeps (steps : List TaskStep) : Prop :=
  ∀ s ∈ steps, ∀ d ∈ s.dependencies, ∃ t ∈ steps, t.id = d

/-! ## Concrete fixtures used by counterexamples and witnesses -/

/-- Step "B" of the C2 counterexample: depends on the in-list id "a". -/
def cexStepB : TaskStep := ⟨"b", "step b", TaskStatus.pending, ["a"], none, none, none⟩

/-- Step "A" of the C2 counterexample: depends on the foreign id "z". -/
def cexStepA : TaskStep := ⟨"a", "step a", TaskStatus.pending, ["z"], none, none, none⟩

/-- The C2 counterexample input: acyclic among its own ids, yet the
as-is fallback of `prioritize_steps` fires because of the foreign
dependency "z". -/
def cexC2Steps : List TaskStep := [cexStepB, cexStepA]

/-- A two-step acyclic closed input used by witnesses. -/
def exSteps : List TaskStep :=
  [⟨"1", "first", TaskStatus.pending, [], none, none, none⟩,
   ⟨"2", "second", TaskStatus.pending, ["1"], none, none, none⟩]

/-- Candidate tool of claim C9: scores positively but is not in the
registry. -/
def candTool : Tool := ⟨"mytool", "does things", ToolCategory.core, [], [], RiskLevel.low, false⟩

/-- Registered tool of claim C9: same name as `candTool`, different
content. -/
def regTool : Tool :=
  ⟨"mytool", "a different registered tool", ToolCategory.core, [], [], RiskLevel.low, false⟩

/-- C6 counterexample candidate: its single name token equals its single
description token, so the code counts it twice while the union counts it
once. -/
def toolTA : Tool := ⟨"aa", "aa", ToolCategory.core, [], [], RiskLevel.low, false⟩

/-- C6 counterexample candidate with two distinct tokens. -/
def toolTB : Tool := ⟨"bb", "cc", ToolCategory.core, [], [], RiskLevel.low, false⟩

/-- Registry holding the two C6 counterexample tools. -/
def regAB : List (String × Tool) := register_tool toolTB (register_tool toolTA [])

/-- The `read_file` default tool (second entry of `defaultTools`). -/
def readFileTool : Tool :=
  ⟨"read_file", "Read contents of a file", ToolCategory.environment,
   [("path", "str"), ("encoding", "str")], ["path"], RiskLevel.low, false⟩

/-- An always-failing action for the C5 witness: attempt `k` raises the
error value `k`. -/
def failAct : Nat → Except Nat Unit := fun k => Except.error k

/-- A single-tool registry for the C6 witness. -/
def regTA : List (String × Tool) := register_tool toolTA []

/-- The id oracle of the C1 counterexample. -/
def cexIds : Nat → String := fun i => if i = 0 then "id0" else "id1"

/-- The LLM oracle of the C1 counterexample: any prompt yields the raw
response "resp". -/
def cexClient : Option (String → String) := some (fun _ => "resp")

/-- The JSON oracle of the C1 counterexample: the response decodes to two
steps, the first depending on index "0" (as `_parse_steps_response`
stores dependencies), the second independent. -/
def cexJson : String → Option (List StepData) := fun _ =>
  some [⟨some "step A", ["0"], none⟩, ⟨some "step B", [], none⟩]

/-- A step handler that always succeeds. -/
def okExec : TaskStep → Except String String := fun _ => Except.ok "done"

/-- An audit entry with the given timestamp and fixed remaining fields. -/
def mkEntry (i : Nat) : AuditEntry := ⟨i, "act", "desc", none, none, RiskLevel.low, true, none⟩

/-- A 101-entry audit log of pairwise distinct entries. -/
def log101 : List AuditEntry := (List.range 101).map mkEntry

/-- The plan of the C4 counterexample: plan-level status `completed`
although its only step is still `pending`. -/
def cexC4Plan : ExecutionPlan :=
  ⟨"p1", "goal", [⟨"s1", "only step", TaskStatus.pending, [], none, none, none⟩],
   TaskStatus.completed, none⟩

/-! ## Theorems -/

/-- Bridge between `List.any` and existential pattern matching. -/
theorem any_eq_false_of_not_exists {α : Type} {p : α → Bool} {l : List α}
    (h : ¬ ∃ x ∈ l, p x = true) : l.any p = false := by
  cases hx : l.any p with
  | false => rfl
  | true => exact absurd (List.any_eq_true.mp hx) h

/-- For tasks of at most 90 words the pydantic constraints accept the
computed `ComplexityScore`, and `estimate_complexity` returns exactly the
amended spec formula.  (Beyond 90 words with a complex keyword present,
`cognitive = min(10, wc/10) + 1` exceeds the `le=10.0` bound and pydantic
raises.) -/
theorem estimate_complexity_valid (task : String) (hw : wordCount task ≤ 90) :
    estimate_complexity task = some (specAmendedComplexity task) := by
  have hcast : ((wordCount task : ℚ)) ≤ 90 := by exact_mod_cast hw
  have hq : ((wordCount task : ℚ)) / 10 ≤ 9 := by linarith
  have h0 : (0 : ℚ) ≤ ((wordCount task : ℚ)) / 10 := by positivity
  have hmin9 : min (10 : ℚ) (((wordCount task : ℚ)) / 10) ≤ 9 :=
    le_trans (min_le_right _ _) hq
  have hmin10 : min (10 : ℚ) (((wordCount task : ℚ)) / 10) ≤ 10 := min_le_left _ _
  have hmin0 : (0 : ℚ) ≤ min (10 : ℚ) (((wordCount task : ℚ)) / 10) :=
    le_min (by norm_num) h0
  simp only [estimate_complexity, specAmendedComplexity, mkComplexityScore]
  set m : ℚ := min 10 (((wordCount task : ℚ)) / 10) with hm
  set bC := complexKeywords.any (fun kw => containsSub kw.data (lowerChars task)) with hbC
  set bS := simpleKeywords.any (fun kw => containsSub kw.data (lowerChars task)) with hbS
  have hcog : (if bC = true then m + 1 else m) = m + (if bC = true then (1 : ℚ) else 0) := by
    cases bC <;> simp
  have htech :
      (if bS = true then (if bC = true then (5 : ℚ) + 2 else 5) - 1
       else (if bC = true then (5 : ℚ) + 2 else 5)) =
        5 + (if bC = true then (2 : ℚ) else 0) - (if bS = true then (1 : ℚ) else 0) := by
    cases bC <;> cases bS <;> norm_num
  rw [hcog, htech]
  have hc0 : (0 : ℚ) ≤ m + (if bC = true then (1 : ℚ) else 0) := by
    cases bC <;> simp <;> linarith
  have hc10 : m + (if bC = true then (1 : ℚ) else 0) ≤ 10 := by
    cases bC <;> simp <;> linarith
  have ht0 : (0 : ℚ) ≤
      max 0 (min 10 (5 + (if bC = true then (2 : ℚ) else 0) - (if bS = true then (1 : ℚ) else 0))) :=
    le_max_left 0 _
  have ht10 :
      max 0 (min 10 (5 + (if bC = true then (2 : ℚ) else 0) - (if bS = true then (1 : ℚ) else 0))) ≤
        10 :=
    max_le (by norm_num) (min_le_left _ _)
  have ho0 : (0 : ℚ) ≤
      (m + (if bC = true then (1 : ℚ) else 0) +
        max 0 (min 10 (5 + (if bC = true then (2 : ℚ) else 0) -
          (if bS = true then (1 : ℚ) else 0)))) / 2 := by
    have := add_nonneg hc0 ht0
    linarith
  have ho10 :
      (m + (if bC = true then (1 : ℚ) else 0) +
        max 0 (min 10 (5 + (if bC = true then (2 : ℚ) else 0) -
          (if bS = true then (1 : ℚ) else 0)))) / 2 ≤ 10 := by
    linarith
  rw [if_pos ⟨ho0, ho10, hc0, hc10, ht0, ht10⟩]

/-- C8 counterexample: on task "integrate" the code returns
`cognitive = 1.1` (the implementation also adds `1.0` to `cognitive` for a
complex keyword) and `riskLevel = Medium`, while the claim's formulas give
`cognitive = 0.1` and `riskLevel = Low`; and on a five-word keyword-free
task the code truncates `int(27.5) = 27` where the claim's
`round(27.5) = 28`. -/
theorem estimate_complexity_formula_cex :
    estimate_complexity "integrate" = some (specAmendedComplexity "integrate") ∧
    (specAmendedComplexity "integrate").cognitive = 11 / 10 ∧
    (specAmendedComplexity "integrate").riskLevel = RiskLevel.medium ∧
    (specClaimComplexity "integrate").cognitive = 1 / 10 ∧
    (specClaimComplexity "integrate").riskLevel = RiskLevel.low ∧
    estimate_complexity "one two three four five" =
      some (specAmendedComplexity "one two three four five") ∧
    (specAmendedComplexity "one two three four five").timeEstimate = 27 ∧
    (specClaimComplexity "one two three four five").timeEstimate = 28 := by
  refine ⟨estimate_complexity_valid _ (by decide), ?_, ?_, ?_, ?_,
    estimate_complexity_valid _ (by decide), ?_, ?_⟩ <;>
    · simp only [specAmendedComplexity, specClaimComplexity,
        (by decide : wordCount "integrate" = 1),
        (by decide : wordCount "one two three four five" = 5),
        (by decide :
          (complexKeywords.any fun kw => containsSub kw.data (lowerChars "integrate")) = true),
        (by decide :
          (simpleKeywords.any fun kw => containsSub kw.data (lowerChars "integrate")) = false),
        (by decide :
          (complexKeywords.any fun kw =>
            containsSub kw.data (lowerChars "one two three four five")) = false),
        (by decide :
          (simpleKeywords.any fun kw =>
            containsSub kw.data (lowerChars "one two three four five")) = false),
        Bool.false_eq_true, if_false, if_true, ite_true, ite_false]
      norm_num [round_eq]

/-- C8 amended: `estimate_complexity` is deterministic and (for any task
accepted by the result validation, e.g. any task of at most 90 words)
returns `cognitive = min(10, wordCount/10) (+1 if a complex keyword is
present)`; `technical = 5 (+2 complex, −1 simple, clamped to [0,10])`;
`overall = (cognitive+technical)/2`;
`timeEstimateMinutes = trunc(overall*10)` (Python `int()`, not `round`);
`riskLevel = High if overall>7 else Medium if overall>4 else Low`; and
`estimateComplexity("Fix typo")` yields `overall < 5`. -/
theorem estimate_complexity_spec (task : String) (hw : wordCount task ≤ 90) :
    estimate_complexity task = some (specAmendedComplexity task) ∧
    ∀ c, estimate_complexity "Fix typo" = some c → c.overall < 5 := by
  refine ⟨estimate_complexity_valid task hw, ?_⟩
  intro c hc
  rw [estimate_complexity_valid "Fix typo" (by decide)] at hc
  have hval : (specAmendedComplexity "Fix typo").overall = 21 / 10 := by
    simp only [specAmendedComplexity,
      (by decide : wordCount "Fix typo" = 2),
      (by decide :
        (complexKeywords.any fun kw => containsSub kw.data (lowerChars "Fix typo")) = false),
      (by decide :
        (simpleKeywords.any fun kw => containsSub kw.data (lowerChars "Fix typo")) = true),
      Bool.false_eq_true, if_false, if_true, ite_true, ite_false]
    norm_num
  have : c = specAmendedComplexity "Fix typo" := by
    injection hc with h
    exact h.symm
  rw [this, hval]
  norm_num

/-- C8 witness: `estimate_complexity_spec` applied at "Fix typo". -/
theorem estimate_complexity_spec_witness :
    estimate_complexity "Fix typo" = some (specAmendedComplexity "Fix typo") ∧
    (specAmendedComplexity "Fix typo").overall < 5 :=
  ⟨(estimate_complexity_spec "Fix typo" (by decide)).1,
   (estimate_complexity_spec "Fix typo" (by decide)).2 _
     (estimate_complexity_spec "Fix typo" (by decide)).1⟩

/-- C3: for every `Action`, the lowercase check string (command when
truthy, else name and description) is tested against the pattern tiers by
unanchored substring matching and the most severe matching tier wins: any
Critical match yields `critical` (never lower); with no Critical match a
High match yields `high`; with neither, a Medium match yields `medium`
(never `low`); with no match at all the result is `low`. -/
theorem classify_risk_tiers (a : Action) :
    ((∃ p ∈ criticalPatterns, containsSub (lowerChars p) (checkChars a) = true) →
      classify_risk a = RiskLevel.critical) ∧
    ((¬ ∃ p ∈ criticalPatterns, containsSub (lowerChars p) (checkChars a) = true) →
      (∃ p ∈ highRiskPatterns, containsSub (lowerChars p) (checkChars a) = true) →
      classify_risk a = RiskLevel.high) ∧
    ((¬ ∃ p ∈ criticalPatterns, containsSub (lowerChars p) (checkChars a) = true) →
      (¬ ∃ p ∈ highRiskPatterns, containsSub (lowerChars p) (checkChars a) = true) →
      (∃ p ∈ mediumRiskPatterns, containsSub (lowerChars p) (checkChars a) = true) →
      classify_risk a = RiskLevel.medium) ∧
    ((¬ ∃ p ∈ criticalPatterns, containsSub (lowerChars p) (checkChars a) = true) →
      (¬ ∃ p ∈ highRiskPatterns, containsSub (lowerChars p) (checkChars a) = true) →
      (¬ ∃ p ∈ mediumRiskPatterns, containsSub (lowerChars p) (checkChars a) = true) →
      classify_risk a = RiskLevel.low) := by
  refine ⟨?_, ?_, ?_, ?_⟩
  · intro h1
    have b1 := List.any_eq_true.mpr h1
    simp [classify_risk, b1]
  · intro h1 h2
    have b1 := any_eq_false_of_not_exists h1
    have b2 := List.any_eq_true.mpr h2
    simp [classify_risk, b1, b2]
  · intro h1 h2 h3
    have b1 := any_eq_false_of_not_exists h1
    have b2 := any_eq_false_of_not_exists h2
    have b3 := List.any_eq_true.mpr h3
    simp [classify_risk, b1, b2, b3]
  · intro h1 h2 h3
    have b1 := any_eq_false_of_not_exists h1
    have b2 := any_eq_false_of_not_exists h2
    have b3 := any_eq_false_of_not_exists h3
    simp [classify_risk, b1, b2, b3]

/-- C3 witness: one concrete action per tier, each settled by applying
`classify_risk_tiers`. -/
theorem classify_risk_tiers_witness :
    classify_risk ⟨"x", "y", some "rm -rf /tmp/all", none⟩ = RiskLevel.critical ∧
    classify_risk ⟨"x", "y", some "sudo reboot", none⟩ = RiskLevel.high ∧
    classify_risk ⟨"x", "y", some "git commit -m hi", none⟩ = RiskLevel.medium ∧
    classify_risk ⟨"x", "y", some "ls -la", none⟩ = RiskLevel.low :=
  ⟨(classify_risk_tiers _).1 (by decide),
   (classify_risk_tiers _).2.1 (by decide) (by decide),
   (classify_risk_tiers _).2.2.1 (by decide) (by decide) (by decide),
   (classify_risk_tiers _).2.2.2 (by decide) (by decide) (by decide)⟩

/-- C4 counterexample: on a plan whose stored status is `completed` but
whose only step is still `pending`, `update_plan_status` leaves the plan
`completed`, so "Completed iff all steps are Completed" fails (the
function is not a pure function of the step statuses). -/
theorem update_plan_status_iff_cex :
    (update_plan_status cexC4Plan).status = TaskStatus.completed ∧
    ¬ (∀ s ∈ cexC4Plan.steps, s.status = TaskStatus.completed) := by
  decide

/-- C4 amended: `update_plan_status` sets `Completed` iff all steps are
`Completed`, else `Failed`/`InProgress`/`Blocked` by the priority rule,
and otherwise (for example when some step is `pending` and none is
failed, in progress, or blocked) leaves the stored status unchanged; the
steps themselves are untouched.  In particular `[Completed, Failed]`
yields `Failed` and `[Completed, Completed]` yields `Completed`. -/
theorem update_plan_status_spec (plan : ExecutionPlan) :
    (update_plan_status plan).status =
      specDerivedStatus (plan.steps.map (fun s => s.status)) plan.status ∧
    (update_plan_status plan).steps = plan.steps ∧
    (update_plan_status
        ⟨"p", "g", [⟨"a", "s1", TaskStatus.completed, [], none, none, none⟩,
                    ⟨"b", "s2", TaskStatus.failed, [], none, none, none⟩],
         TaskStatus.pending, none⟩).status = TaskStatus.failed ∧
    (update_plan_status
        ⟨"p", "g", [⟨"a", "s1", TaskStatus.completed, [], none, none, none⟩,
                    ⟨"b", "s2", TaskStatus.completed, [], none, none, none⟩],
         TaskStatus.pending, none⟩).status = TaskStatus.completed := by
  refine ⟨?_, ?_, by decide, by decide⟩
  · simp only [update_plan_status, specDerivedStatus]
    split_ifs <;> rfl
  · simp only [update_plan_status]
    split_ifs <;> rfl

/-- Auxiliary for C5: when every attempt fails, the retry loop makes all
`fuel + 1` remaining invocations and propagates the error of the final
attempt `k + fuel`, recording `(false, k + fuel)`. -/
theorem retryGo_fail {ε α : Type} (action : Nat → Except ε α) :
    ∀ fuel k, (∀ j, ∃ e, action j = Except.error e) →
      ∀ e, action (k + fuel) = Except.error e →
        retryGo action k fuel = ⟨Except.error e, k + fuel + 1, (false, k + fuel)⟩ := by
  intro fuel
  induction fuel with
  | zero =>
    intro k _ e he
    simp only [Nat.add_zero] at he ⊢
    simp [retryGo, he]
  | succ n ih =>
    intro k h e he
    obtain ⟨e0, he0⟩ := h k
    have he' : action ((k + 1) + n) = Except.error e := by
      have : (k + 1) + n = k + (n + 1) := by omega
      rw [this]; exact he
    have := ih (k + 1) h e he'
    simp only [retryGo, he0, this]
    have harr : (k + 1) + n = k + (n + 1) := by omega
    rw [harr]

/-- C5: an action that raises on every invocation, retried with
`max_retries = n`, is invoked exactly `n + 1` times, the history record is
`{success = false, attempts = n}`, and the exact error object of the last
attempt is the one re-raised. -/
theorem retry_exhaustion {ε α : Type} (n : Nat) (action : Nat → Except ε α)
    (h : ∀ j, ∃ e, action j = Except.error e) :
    (retry_with_backoff n action).calls = n + 1 ∧
    (retry_with_backoff n action).record = (false, n) ∧
    ∀ e, action n = Except.error e →
      (retry_with_backoff n action).outcome = Except.error e := by
  obtain ⟨e, he⟩ := h n
  have hg := retryGo_fail action n 0 h e (by simpa using he)
  unfold retry_with_backoff
  rw [hg]
  refine ⟨by simp, by simp, ?_⟩
  intro e' he'
  rw [he] at he'
  simp only [Except.error.injEq] at he'
  simp [he']

/-- C5 witness: `failAct` always fails; with `max_retries = 2` there are
exactly 3 invocations, the record is `(false, 2)`, and the propagated
error is the one raised by attempt 2. -/
theorem retry_exhaustion_witness :
    (retry_with_backoff 2 failAct).calls = 3 ∧
    (retry_with_backoff 2 failAct).record = (false, 2) ∧
    (retry_with_backoff 2 failAct).outcome = Except.error 2 :=
  ⟨(retry_exhaustion 2 failAct (fun j => ⟨j, rfl⟩)).1,
   (retry_exhaustion 2 failAct (fun j => ⟨j, rfl⟩)).2.1,
   (retry_exhaustion 2 failAct (fun j => ⟨j, rfl⟩)).2.2 2 rfl⟩

/-- C7 counterexample: with an LLM configured whose response fails JSON
parsing, the single fallback step wraps the raw response ("hello world"),
not the goal ("Fix typo") — the claim's "description equals the raw goal
string" fails in the parse-failure case. -/
theorem decompose_parse_failure_cex :
    decompose_task (some (fun _ => "hello world")) (fun _ => none) (fun _ => "u0")
        "Fix typo" none = [fallbackStep "u0" "hello world"] ∧
    "hello world" ≠ "Fix typo" :=
  ⟨rfl, by decide⟩

/-- C7 amended: both degradation paths return exactly one `pending` step;
with no LLM configured its description is the raw goal unchanged, and on
JSON parse failure its description is the raw LLM response unchanged. -/
theorem decompose_task_degradation (goal : String) (context : Option String)
    (ids : Nat → String) (jsonArr : String → Option (List StepData))
    (complete : String → String)
    (hparse : jsonArr (complete (build_decomposition_prompt goal context)) = none) :
    decompose_task none jsonArr ids goal context = [fallbackStep (ids 0) goal] ∧
    decompose_task (some complete) jsonArr ids goal context =
      [fallbackStep (ids 0) (complete (build_decomposition_prompt goal context))] := by
  constructor
  · rfl
  · simp [decompose_task, parse_steps_response, hparse]

/-- C7 witness: `decompose_task_degradation` applied at goal "Fix typo"
with a parser that rejects the response. -/
theorem decompose_task_degradation_witness :
    decompose_task none (fun _ => none) (fun _ => "u0") "Fix typo" none =
      [fallbackStep "u0" "Fix typo"] ∧
    decompose_task (some (fun _ => "not json")) (fun _ => none) (fun _ => "u0")
        "Fix typo" none = [fallbackStep "u0" "not json"] :=
  ⟨(decompose_task_degradation "Fix typo" none (fun _ => "u0") (fun _ => none)
      (fun _ => "not json") rfl).1,
   (decompose_task_degradation "Fix typo" none (fun _ => "u0") (fun _ => none)
      (fun _ => "not json") rfl).2⟩

/-- C9: `select_tool` resolves the best-scoring name through the internal
registry: a positively-scoring candidate that is not registered produces a
`KeyError`, and when a different tool is registered under the same name
that registered tool is returned instead of the candidate. -/
theorem select_tool_registry_lookup :
    select_tool defaultRegistry (some [candTool]) "use mytool" =
      SelectResult.keyError "mytool" ∧
    0 < toolScore candTool (lowerChars "use mytool") ∧
    select_tool (register_tool regTool defaultRegistry) (some [candTool]) "use mytool" =
      SelectResult.found regTool ∧
    regTool ≠ candTool := by
  refine ⟨by decide, by decide, by decide, by decide⟩

/-- C10: `get_audit_log` returns exactly the suffix of the last 100
entries of the append-only log — hence at most 100 entries, and (for a
log of pairwise distinct entries) every entry older than the last 100 is
absent from the result. -/
theorem get_audit_log_last_100 (log : List AuditEntry) :
    (get_audit_log log).length ≤ 100 ∧
    get_audit_log log = log.drop (log.length - 100) ∧
    (log.Nodup → ∀ e ∈ log.take (log.length - 100), e ∉ get_audit_log log) := by
  refine ⟨?_, ?_, ?_⟩
  · simp only [get_audit_log, get_entries, if_neg (by omega : ¬ (100 : Nat) = 0),
      List.length_drop]
    omega
  · simp [get_audit_log, get_entries]
  · intro hnd e he hmem
    rw [show get_audit_log log = log.drop (log.length - 100) by
      simp [get_audit_log, get_entries]] at hmem
    exact List.disjoint_take_drop hnd le_rfl he hmem

/-- C10 witness: in a 101-entry log of distinct entries the oldest entry
is absent from `get_audit_log`'s result. -/
theorem get_audit_log_last_100_witness : mkEntry 0 ∉ get_audit_log log101 :=
  (get_audit_log_last_100 log101).2.2
    ((List.nodup_range 101).map (fun a b hab => congrArg AuditEntry.timestamp hab))
    (mkEntry 0) (by decide)

/-- C1 counterexample: a goal whose (oracle) LLM decomposition yields a
dependent step before an independent one is executed by the agent loop in
the plan's original order `["step A", "step B"]`, while
`prioritize_steps` on the same steps yields `["step B", "step A"]` — the
observed execution order is not the scheduler output. -/
theorem run_order_not_scheduler_order_cex :
    ∃ p, create_execution_plan cexClient cexJson cexIds "build app" none "plan-1" = some p ∧
      ((runLoop okExec p.steps).2).map (fun r => r.step) = ["step A", "step B"] ∧
      (prioritize_steps p.steps).map (fun s => s.description) = ["step B", "step A"] ∧
      (["step A", "step B"] : List String) ≠ ["step B", "step A"] := by
  refine ⟨⟨"plan-1", "build app",
      decompose_task cexClient cexJson cexIds "build app" none,
      TaskStatus.pending, some 1560⟩, ?_, by decide, by decide, by decide⟩
  have hest : estimate_complexity "build app" = some (specAmendedComplexity "build app") :=
    estimate_complexity_valid "build app" (by decide)
  have hval : specAmendedComplexity "build app" =
      ⟨13/5, 1/5, 5, 26, RiskLevel.low⟩ := by
    simp only [specAmendedComplexity,
      (by decide : wordCount "build app" = 2),
      (by decide :
        (complexKeywords.any fun kw => containsSub kw.data (lowerChars "build app")) = false),
      (by decide :
        (simpleKeywords.any fun kw => containsSub kw.data (lowerChars "build app")) = false),
      Bool.false_eq_true, if_false, ComplexityScore.mk.injEq]
    norm_num
  unfold create_execution_plan
  rw [hest, hval]
  rfl

/-- C1 amended: `OmniBuilderAgent.run` executes the plan's steps exactly
in `plan.steps` original order (the `results` entries appear in that
order); `prioritize_steps` is never invoked by the run loop. -/
theorem run_executes_in_plan_order (exec : TaskStep → Except String String)
    (steps : List TaskStep) :
    ((runLoop exec steps).2).map (fun r => r.step) =
      steps.map (fun s => s.description) := by
  induction steps with
  | nil => rfl
  | cons s rest ih =>
    unfold runLoop
    cases hx : exec { s with status := TaskStatus.inProgress } <;>
      simpa [hx] using ih

/-! ## Lemmas for the scheduler (claim C2) -/

/-- Removing the elements satisfying `p` strictly shrinks a list that
contains at least one such element. -/
theorem length_filter_not_lt {α : Type} (p : α → Bool) :
    ∀ l : List α, (∃ x ∈ l, p x = true) →
      (l.filter (fun x => !p x)).length < l.length := by
  intro l
  induction l with
  | nil => rintro ⟨x, hx, _⟩; exact absurd hx (List.not_mem_nil x)
  | cons a l ih =>
    intro h
    cases ha : p a with
    | true =>
      have hstep : ((a :: l).filter fun x => !p x) = l.filter (fun x => !p x) := by
        simp [ha]
      have hle : (l.filter (fun x => !p x)).length ≤ l.length := l.length_filter_le _
      rw [hstep]
      simp only [List.length_cons]
      omega
    | false =>
      obtain ⟨x, hx, hpx⟩ := h
      have hxl : x ∈ l := by
        rcases List.mem_cons.mp hx with rfl | h'
        · rw [ha] at hpx; cases hpx
        · exact h'
      have hlt := ih ⟨x, hxl, hpx⟩
      have hstep : ((a :: l).filter fun x => !p x) = a :: l.filter (fun x => !p x) := by
        simp [ha]
      rw [hstep]
      simp only [List.length_cons]
      omega

/-- Stable insertion keeps the same elements. -/
theorem insertByDeps_perm (s : TaskStep) :
    ∀ l : List TaskStep, List.Perm (insertByDeps s l) (s :: l) := by
  intro l
  induction l with
  | nil => simp [insertByDeps]
  | cons t ts ih =>
    simp only [insertByDeps]
    split_ifs
    · exact List.Perm.refl _
    · exact List.Perm.trans (List.Perm.cons t ih) (List.Perm.swap s t ts)

/-- The stable sort of the ready list is a permutation of it. -/
theorem sortByDeps_perm : ∀ l : List TaskStep, List.Perm (sortByDeps l) l := by
  intro l
  induction l with
  | nil => exact List.Perm.refl _
  | cons s ss ih =>
    exact List.Perm.trans (insertByDeps_perm s (sortByDeps ss)) (List.Perm.cons s ih)

/-- The scheduler loop always returns a permutation of the remaining
steps, for any fuel. -/
theorem prioritizeGo_perm :
    ∀ (fuel : Nat) (completed : List String) (remaining : List TaskStep),
      List.Perm (prioritizeGo completed remaining fuel) remaining := by
  intro fuel
  induction fuel with
  | zero => intro completed remaining; exact List.Perm.refl _
  | succ n ih =>
    intro completed remaining
    simp only [prioritizeGo]
    cases hready : (remaining.filter (stepReady completed)).isEmpty with
    | true => simp only [if_pos rfl]; exact List.Perm.refl _
    | false =>
      rw [if_neg (by simp [hready])]
      refine List.Perm.trans
        (List.Perm.append (sortByDeps_perm _) (ih _ _)) ?_
      exact List.filter_append_perm _ remaining

/-- `TopoFrom` is monotone in the set of initially satisfied ids. -/
theorem topoFrom_mono :
    ∀ (out : List TaskStep) (c c' : List String),
      (∀ x ∈ c, x ∈ c') → TopoFrom c out → TopoFrom c' out := by
  intro out
  induction out with
  | nil => intro c c' _ _; trivial
  | cons s rest ih =>
    intro c c' hsub h
    obtain ⟨hdeps, hrest⟩ := h
    refine ⟨fun d hd => hsub d (hdeps d hd), ?_⟩
    refine ih (c ++ [s.id]) (c' ++ [s.id]) ?_ hrest
    intro x hx
    rcases List.mem_append.mp hx with h' | h'
    · exact List.mem_append_left _ (hsub x h')
    · exact List.mem_append_right _ h'

/-- Prepending a block of steps whose dependencies are all already
satisfied preserves topological ordering. -/
theorem topoFrom_append :
    ∀ (A : List TaskStep) (c : List String) (out : List TaskStep),
      (∀ r ∈ A, ∀ d ∈ r.dependencies, d ∈ c) →
      TopoFrom (c ++ A.map (fun s => s.id)) out → TopoFrom c (A ++ out) := by
  intro A
  induction A with
  | nil => intro c out _ h; simpa using h
  | cons r A ih =>
    intro c out h1 h2
    refine ⟨h1 r (List.mem_cons_self r A), ?_⟩
    refine ih (c ++ [r.id]) out ?_ ?_
    · intro r' hr' d hd
      exact List.mem_append_left _ (h1 r' (List.mem_cons_of_mem r hr') d hd)
    · have : (c ++ [r.id]) ++ A.map (fun s => s.id) =
          c ++ (r :: A).map (fun s => s.id) := by
        simp [List.append_assoc]
      rw [this]
      exact h2

/-- From a topologically ordered output, every dependency of a step is
either initially satisfied or provided by an earlier step. -/
theorem topoFrom_appears :
    ∀ (pre : List TaskStep) (c : List String) (out : List TaskStep)
      (s : TaskStep) (post : List TaskStep), TopoFrom c out →
      out = pre ++ s :: post → ∀ d ∈ s.dependencies, d ∈ c ∨ ∃ t ∈ pre, t.id = d := by
  intro pre
  induction pre with
  | nil =>
    intro c out s post h hout d hd
    subst hout
    exact Or.inl (h.1 d hd)
  | cons x pre ih =>
    intro c out s post h hout d hd
    subst hout
    obtain ⟨_, hrest⟩ := h
    rcases ih (c ++ [x.id]) (pre ++ s :: post) s post hrest rfl d hd with h' | h'
    · rcases List.mem_append.mp h' with h'' | h''
      · exact Or.inl h''
      · refine Or.inr ⟨x, List.mem_cons_self x pre, ?_⟩
        simpa using (List.mem_singleton.mp h'').symm
    · obtain ⟨t, ht, htd⟩ := h'
      exact Or.inr ⟨t, List.mem_cons_of_mem x ht, htd⟩

/-- A rank function decreasing along dependencies certifies acyclicity. -/
theorem acyclic_of_rank (steps : List TaskStep) (f : TaskStep → Nat)
    (h : ∀ a ∈ steps, ∀ b ∈ steps, b.id ∈ a.dependencies → f b < f a) :
    AcyclicDeps steps := by
  have key : ∀ a b, Relation.TransGen (step_dep steps) a b → f b < f a := by
    intro a b htg
    induction htg with
    | single h1 => exact h _ h1.1 _ h1.2.1 h1.2.2
    | tail _ h1 ih => exact lt_trans (h _ h1.1 _ h1.2.1 h1.2.2) ih
  intro s _ hcyc
  exact lt_irrefl _ (key s s hcyc)

/-- If every remaining step still has a dependency provided only by
another remaining step, the dependency relation has a cycle — impossible
for an acyclic list of steps.  (This is why the ready set of
`prioritize_steps` cannot be empty while steps remain, under closed
acyclic dependencies.) -/
theorem no_stall (steps remaining : List TaskStep)
    (hsub : ∀ s ∈ remaining, s ∈ steps) (hne : remaining ≠ [])
    (hser : ∀ s ∈ remaining, ∃ t ∈ remaining, t.id ∈ s.dependencies)
    (hacyc : AcyclicDeps steps) : False := by
  classical
  obtain ⟨s0, hs0⟩ := List.exists_mem_of_ne_nil remaining hne
  have hch : ∀ x : {s // s ∈ remaining},
      ∃ y : {s // s ∈ remaining}, y.1.id ∈ x.1.dependencies := by
    rintro ⟨s, hs⟩
    obtain ⟨t, ht, hd⟩ := hser s hs
    exact ⟨⟨t, ht⟩, hd⟩
  choose next hnext using hch
  have hone : ∀ n : Nat,
      step_dep steps (next^[n] ⟨s0, hs0⟩).1 (next^[n + 1] ⟨s0, hs0⟩).1 := by
    intro n
    refine ⟨hsub _ (next^[n] ⟨s0, hs0⟩).2, hsub _ (next^[n + 1] ⟨s0, hs0⟩).2, ?_⟩
    rw [Function.iterate_succ_apply' next n]
    exact hnext (next^[n] ⟨s0, hs0⟩)
  have htg : ∀ m n : Nat, m < n →
      Relation.TransGen (step_dep steps) (next^[m] ⟨s0, hs0⟩).1 (next^[n] ⟨s0, hs0⟩).1 := by
    intro m n hmn
    induction n with
    | zero => omega
    | succ k ih =>
      rcases Nat.lt_or_ge m k with h' | h'
      · exact Relation.TransGen.tail (ih h') (hone k)
      · have : m = k := by omega
        subst this
        exact Relation.TransGen.single (hone m)
  have hmaps : ∀ k ∈ Finset.range (remaining.toFinset.card + 1),
      (next^[k] ⟨s0, hs0⟩).1 ∈ remaining.toFinset := by
    intro k _
    exact List.mem_toFinset.mpr (next^[k] ⟨s0, hs0⟩).2
  have hcard : remaining.toFinset.card < (Finset.range (remaining.toFinset.card + 1)).card := by
    simp
  obtain ⟨i, _, j, _, hij, heq⟩ :=
    Finset.exists_ne_map_eq_of_card_lt_of_maps_to hcard hmaps
  rcases lt_or_gt_of_ne hij with h' | h'
  · exact hacyc _ (hsub _ (next^[i] ⟨s0, hs0⟩).2) (heq ▸ htg i j h')
  · exact hacyc _ (hsub _ (next^[j] ⟨s0, hs0⟩).2) (heq ▸ htg j i h')

/-- The scheduler loop produces a topologically ordered output when the
remaining steps are drawn from an acyclic list and every unsatisfied
dependency is provided by a remaining step. -/
theorem prioritizeGo_topo :
    ∀ (fuel : Nat) (steps remaining : List TaskStep) (completed : List String),
      remaining.length ≤ fuel →
      (∀ s ∈ remaining, s ∈ steps) →
      (∀ s ∈ remaining, ∀ d ∈ s.dependencies, d ∉ completed → ∃ t ∈ remaining, t.id = d) →
      AcyclicDeps steps →
      TopoFrom completed (prioritizeGo completed remaining fuel) := by
  intro fuel
  induction fuel with
  | zero =>
    intro steps remaining completed hlen _ _ _
    have : remaining = [] := List.eq_nil_of_length_eq_zero (Nat.le_zero.mp hlen)
    subst this
    trivial
  | succ n ih =>
    intro steps remaining completed hlen hsub hclosed hacyc
    simp only [prioritizeGo]
    cases hready : (remaining.filter (stepReady completed)).isEmpty with
    | true =>
      rw [if_pos rfl]
      have hreadynil : remaining.filter (stepReady completed) = [] :=
        List.isEmpty_iff.mp hready
      cases hrem : remaining with
      | nil => subst hrem; trivial
      | cons a as =>
        exfalso
        refine no_stall steps remaining hsub (by rw [hrem]; simp) ?_ hacyc
        intro s hs
        have hnotready : stepReady completed s = false := by
          cases hx : stepReady completed s with
          | false => rfl
          | true =>
            have : s ∈ remaining.filter (stepReady completed) :=
              List.mem_filter.mpr ⟨hs, hx⟩
            rw [hreadynil] at this
            exact absurd this (List.not_mem_nil s)
        have : ¬ ∀ d ∈ s.dependencies, completed.contains d = true := by
          intro hall
          rw [show stepReady completed s = s.dependencies.all
            (fun d => completed.contains d) from rfl] at hnotready
          rw [List.all_eq_true.mpr hall] at hnotready
          cases hnotready
        push_neg at this
        obtain ⟨d, hd, hdc⟩ := this
        have hdnc : d ∉ completed := fun hmem => hdc (List.elem_iff.mpr hmem)
        obtain ⟨t, ht, htid⟩ := hclosed s hs d hd hdnc
        exact ⟨t, ht, htid ▸ hd⟩
    | false =>
      rw [if_neg (by simp [hready])]
      have hex : ∃ x ∈ remaining, stepReady completed x = true := by
        cases hfil : remaining.filter (stepReady completed) with
        | nil => rw [hfil] at hready; cases hready
        | cons a as =>
          have : a ∈ remaining.filter (stepReady completed) := by rw [hfil]; simp
          exact ⟨a, List.mem_of_mem_filter this, (List.mem_filter.mp this).2⟩
      refine topoFrom_append _ _ _ ?_ ?_
      · intro r hr d hd
        have hr' : r ∈ remaining.filter (stepReady completed) :=
          (sortByDeps_perm _).mem_iff.mp hr
        have : stepReady completed r = true := (List.mem_filter.mp hr').2
        have := List.all_eq_true.mp this d hd
        exact List.elem_iff.mp this
      · refine topoFrom_mono _ _ _ ?_
          (ih steps (remaining.filter (fun s => !stepReady completed s))
            (completed ++ (remaining.filter (stepReady completed)).map (fun s => s.id))
            ?_ ?_ ?_ hacyc)
        · intro x hx
          rcases List.mem_append.mp hx with h' | h'
          · exact List.mem_append_left _ h'
          · refine List.mem_append_right _ ?_
            obtain ⟨t, ht, htid⟩ := List.mem_map.mp h'
            exact List.mem_map.mpr ⟨t, (sortByDeps_perm _).mem_iff.mpr ht, htid⟩
        · have := length_filter_not_lt (stepReady completed) remaining hex
          omega
        · intro s hs
          exact hsub s (List.mem_of_mem_filter hs)
        · intro s hs d hd hdnc
          have hdnc1 : d ∉ completed := fun hmem =>
            hdnc (List.mem_append_left _ hmem)
          obtain ⟨t, ht, htid⟩ :=
            hclosed s (List.mem_of_mem_filter hs) d hd hdnc1
          have htnotready : stepReady completed t = false := by
            cases hx : stepReady completed t with
            | false => rfl
            | true =>
              exfalso
              refine hdnc (List.mem_append_right _ ?_)
              exact List.mem_map.mpr ⟨t, List.mem_filter.mpr ⟨ht, hx⟩, htid⟩
          refine ⟨t, List.mem_filter.mpr ⟨ht, ?_⟩, htid⟩
          rw [htnotready]
          rfl

/-- C2 counterexample: the two-step input `cexC2Steps` has distinct ids
and an acyclic dependency relation among its own steps (the only in-list
edge is "b" depends on "a"), yet because "a"'s dependency "z" names no
step of the list, `prioritize_steps` hits its as-is fallback and returns
the step with id "b" *before* its dependency "a" — the claimed
topological-order guarantee fails. -/
theorem prioritize_topo_claim_cex :
    (cexC2Steps.map (fun s => s.id)).Nodup ∧ AcyclicDeps cexC2Steps ∧
    ¬ AppearsAfterDeps (prioritize_steps cexC2Steps) := by
  refine ⟨by decide,
    acyclic_of_rank _ (fun s => if s.id = "b" then 1 else 0) (by decide), ?_⟩
  intro h
  have := h [] cexStepB [cexStepA] (by decide) "a" (by decide)
    ⟨cexStepA, by decide, rfl⟩
  simp at this

/-- C2 amended: for a list of steps with distinct ids whose dependencies
are all provided inside the list (a closed dependency graph) and whose
dependency relation is acyclic, `prioritize_steps` returns an ordering in
which every step appears after all of its dependencies; and for every
input list whatsoever (dependency cycles included) it terminates with a
permutation of the input — no step dropped or duplicated. -/
theorem prioritize_steps_correct (steps : List TaskStep)
    (_hids : (steps.map (fun s => s.id)).Nodup)
    (hclosed : ClosedDeps steps) (hacyc : AcyclicDeps steps) :
    AppearsAfterDeps (prioritize_steps steps) ∧
    ∀ l : List TaskStep, List.Perm (prioritize_steps l) l := by
  constructor
  · have htopo : TopoFrom [] (prioritize_steps steps) := by
      refine prioritizeGo_topo steps.length steps steps [] le_rfl (fun s hs => hs) ?_ hacyc
      intro s hs d hd _
      exact hclosed s hs d hd
    intro pre s post hsplit d hd _
    rcases topoFrom_appears pre [] (prioritize_steps steps) s post htopo hsplit d hd with
      h | h
    · exact absurd h (List.not_mem_nil d)
    · exact h
  · intro l
    exact prioritizeGo_perm l.length [] l

/-- C2 witness: `prioritize_steps_correct` applied at the concrete
acyclic closed two-step input `exSteps`. -/
theorem prioritize_steps_correct_witness :
    AppearsAfterDeps (prioritize_steps exSteps) ∧
    List.Perm (prioritize_steps exSteps) exSteps :=
  ⟨(prioritize_steps_correct exSteps (by decide) (by unfold ClosedDeps; decide)
      (acyclic_of_rank _ (fun s => if s.id = "2" then 1 else 0) (by decide))).1,
   (prioritize_steps_correct exSteps (by decide) (by unfold ClosedDeps; decide)
      (acyclic_of_rank _ (fun s => if s.id = "2" then 1 else 0) (by decide))).2 exSteps⟩

/-! ## Lemmas for the tool selector (claim C6) -/

/-- Dict assignment with a fresh key appends. -/
theorem upsertA_not_mem {α : Type} (k : String) (v : α) :
    ∀ l : List (String × α), k ∉ l.map Prod.fst → upsertA k v l = l ++ [(k, v)] := by
  intro l
  induction l with
  | nil => intro _; rfl
  | cons kv rest ih =>
    intro h
    have hk : kv.1 ≠ k := by
      intro he
      exact h (by simp [he])
    simp only [upsertA]
    rw [if_neg hk]
    have : k ∉ rest.map Prod.fst := by
      intro hmem
      exact h (by simp [hmem])
    rw [ih this]
    simp

/-- With pairwise distinct candidate names that are fresh for the
accumulator, the scores dict is the accumulator followed by one binding
per tool in order. -/
theorem buildScores_eq_map (taskLower : List Char) :
    ∀ (tools : List Tool) (acc : List (String × Nat)),
      (tools.map Tool.name).Nodup →
      (∀ t ∈ tools, t.name ∉ acc.map Prod.fst) →
      buildScores taskLower tools acc =
        acc ++ tools.map (fun t => (t.name, toolScore t taskLower)) := by
  intro tools
  induction tools with
  | nil => intro acc _ _; simp [buildScores]
  | cons t ts ih =>
    intro acc hnd hfresh
    have hnd' : t.name ∉ ts.map Tool.name ∧ (ts.map Tool.name).Nodup :=
      List.nodup_cons.mp (by simpa using hnd)
    simp only [buildScores]
    rw [upsertA_not_mem t.name (toolScore t taskLower) acc
      (hfresh t (List.mem_cons_self t ts))]
    rw [ih (acc ++ [(t.name, toolScore t taskLower)]) hnd'.2 ?_]
    · simp
    · intro u hu
      simp only [List.map_append, List.mem_append]
      rintro (h' | h')
      · exact hfresh u (List.mem_cons_of_mem t hu) h'
      · have hne : u.name ≠ t.name := by
          intro he
          exact hnd'.1 (he ▸ List.mem_map.mpr ⟨u, hu, rfl⟩)
        simp at h'
        exact hne h'

/-- A nonempty scores dict has an argmax. -/
theorem argmaxFirst_isSome {l : List (String × Nat)} (h : l ≠ []) :
    ∃ kv, argmaxFirst l = some kv := by
  cases l with
  | nil => exact absurd rfl h
  | cons kv rest =>
    simp only [argmaxFirst]
    cases argmaxFirst rest with
    | none => exact ⟨kv, rfl⟩
    | some kv' =>
      by_cases hc : kv.2 < kv'.2
      · exact ⟨kv', by simp [hc]⟩
      · exact ⟨kv, by simp [hc]⟩

/-- The argmax is a binding of the dict and its value dominates every
binding's value. -/
theorem argmaxFirst_spec :
    ∀ (l : List (String × Nat)) (kv : String × Nat), argmaxFirst l = some kv →
      kv ∈ l ∧ ∀ p ∈ l, p.2 ≤ kv.2 := by
  intro l
  induction l with
  | nil => intro kv h; cases h
  | cons hd tl ih =>
    intro kv h
    simp only [argmaxFirst] at h
    cases hrec : argmaxFirst tl with
    | none =>
      rw [hrec] at h
      dsimp only at h
      cases tl with
      | nil =>
        injection h with h
        subst h
        exact ⟨List.mem_singleton.mpr rfl, by simp⟩
      | cons a as =>
        exfalso
        obtain ⟨kv', hkv'⟩ := argmaxFirst_isSome (l := a :: as) (by simp)
        rw [hkv'] at hrec
        cases hrec
    | some kv' =>
      rw [hrec] at h
      dsimp only at h
      obtain ⟨hmem', hmax'⟩ := ih kv' hrec
      by_cases hc : hd.2 < kv'.2
      · rw [if_pos hc] at h
        injection h with h
        subst h
        refine ⟨List.mem_cons_of_mem hd hmem', ?_⟩
        intro p hp
        rcases List.mem_cons.mp hp with rfl | hp'
        · exact le_of_lt hc
        · exact hmax' p hp'
      · rw [if_neg hc] at h
        injection h with h
        subst h
        refine ⟨List.mem_cons_self hd tl, ?_⟩
        intro p hp
        rcases List.mem_cons.mp hp with rfl | hp'
        · exact le_rfl
        · exact le_trans (hmax' p hp') (Nat.le_of_not_lt hc)

/-- C6 counterexample: on candidates `toolTA`/`toolTB` with registry
`regAB` and description "aa bb cc", the code returns `toolTA` (its name
and description token "aa" is counted twice, score 7), although under the
claim's union scoring `toolTA` scores 6 and `toolTB` scores 7 — the
returned tool is not a union-score maximizer, and the code's score
differs from the union score. -/
theorem select_tool_union_scoring_cex :
    select_tool regAB (some [toolTA, toolTB]) "aa bb cc" = SelectResult.found toolTA ∧
    specUnionScore toolTA (lowerChars "aa bb cc") <
      specUnionScore toolTB (lowerChars "aa bb cc") ∧
    toolScore toolTA (lowerChars "aa bb cc") ≠
      specUnionScore toolTA (lowerChars "aa bb cc") := by
  refine ⟨by decide, by decide, by decide⟩

/-- C6 amended: `select_tool` scores each candidate by `+1` per token of
the *concatenation* of its name tokens and description tokens (duplicate
tokens counted once per occurrence, not once per distinct token) that is
a substring of the lowercased description, `+5` when the full tool name
occurs verbatim; when candidates are registered under their own distinct
names, the result is a maximal-scoring tool if the maximal score is
positive and no tool otherwise; and "read the config file" against the
default registry selects `read_file`. -/
theorem select_tool_argmax (registry : List (String × Tool)) (tools : List Tool)
    (task : String) (hne : tools ≠ []) (hnd : (tools.map Tool.name).Nodup)
    (hreg : ∀ t ∈ tools, lookupA t.name registry = some t) :
    ((∃ t ∈ tools, select_tool registry (some tools) task = SelectResult.found t ∧
        0 < toolScore t (lowerChars task) ∧
        ∀ u ∈ tools, toolScore u (lowerChars task) ≤ toolScore t (lowerChars task)) ∨
      (select_tool registry (some tools) task = SelectResult.noTool ∧
        ∀ u ∈ tools, toolScore u (lowerChars task) = 0)) ∧
    select_tool defaultRegistry none "read the config file" =
      SelectResult.found readFileTool := by
  refine ⟨?_, by decide⟩
  have hbs : buildScores (lowerChars task) tools [] =
      tools.map (fun t => (t.name, toolScore t (lowerChars task))) := by
    simpa using buildScores_eq_map (lowerChars task) tools [] hnd (by simp)
  have hmapne : tools.map (fun t => (t.name, toolScore t (lowerChars task))) ≠ [] := by
    cases tools with
    | nil => exact absurd rfl hne
    | cons a as => simp
  obtain ⟨kv, hkv⟩ := argmaxFirst_isSome hmapne
  obtain ⟨hmem, hmax⟩ := argmaxFirst_spec _ kv hkv
  obtain ⟨t, ht, htkv⟩ := List.mem_map.mp hmem
  have hsel : select_tool registry (some tools) task =
      (if 0 < kv.2 then
        match lookupA kv.1 registry with
        | some u => SelectResult.found u
        | none => SelectResult.keyError kv.1
       else SelectResult.noTool) := by
    simp only [select_tool, if_neg hne, hbs, hkv]
  by_cases hpos : 0 < kv.2
  · left
    refine ⟨t, ht, ?_, ?_, ?_⟩
    · rw [hsel, if_pos hpos]
      rw [← htkv]
      simp only
      rw [hreg t ht]
    · rw [← htkv] at hpos
      exact hpos
    · intro u hu
      have := hmax (u.name, toolScore u (lowerChars task))
        (List.mem_map.mpr ⟨u, hu, rfl⟩)
      rw [← htkv] at this
      exact this
  · right
    refine ⟨?_, ?_⟩
    · rw [hsel, if_neg hpos]
    · intro u hu
      have := hmax (u.name, toolScore u (lowerChars task))
        (List.mem_map.mpr ⟨u, hu, rfl⟩)
      omega

/-- C6 witness: `select_tool_argmax` applied at a concrete one-tool
registry and at the default registry. -/
theorem select_tool_argmax_witness :
    ((∃ t ∈ [toolTA], select_tool regTA (some [toolTA]) "aa" = SelectResult.found t ∧
        0 < toolScore t (lowerChars "aa") ∧
        ∀ u ∈ [toolTA], toolScore u (lowerChars "aa") ≤ toolScore t (lowerChars "aa")) ∨
      (select_tool regTA (some [toolTA]) "aa" = SelectResult.noTool ∧
        ∀ u ∈ [toolTA], toolScore u (lowerChars "aa") = 0)) ∧
    select_tool defaultRegistry none "read the config file" =
      SelectResult.found readFileTool :=
  select_tool_argmax regTA [toolTA] "aa" (by decide) (by decide) (by decide)

end OmniBuilder
